import Mathlib

/-!
Verification of the myredis key-value server core.

Byte strings are modelled as `List Char`, one `Char` per byte (all inputs
considered are ASCII, where Go's byte-level operations and the per-char
model coincide).  Machine integers are modelled by `Nat`/`Int`; the Go
code never exercises the overflow range on the inputs considered here.
-/

namespace MyRedis

/-- A Go byte string, one `Char` per byte. -/
abbrev Str := List Char

/-- The two-byte CRLF line terminator used throughout RESP. -/
def crlf : Str := ['\r', '\n']

/-- Whether a character is an ASCII decimal digit. -/
def isDigitB (c : Char) : Bool := decide ('0' ≤ c) && decide (c ≤ '9')

/-- The ASCII digit character for `n < 10`. -/
def digitChar (n : Nat) : Char :=
  match n with
  | 0 => '0' | 1 => '1' | 2 => '2' | 3 => '3' | 4 => '4'
  | 5 => '5' | 6 => '6' | 7 => '7' | 8 => '8' | 9 => '9'
  | _ => '0'

/-- Numeric value of an ASCII digit character. -/
def digitVal (c : Char) : Nat := c.toNat - 48

/-- Decimal digits of `n`, most significant first.  The fuel argument is
only there to make the recursion structural; `natToStr` supplies `n + 1`,
which always suffices since `n / 10 < n` for `n ≥ 10`. -/
def natToStrAux : Nat → Nat → Str
  | 0, _ => []
  | fuel + 1, n =>
    if n < 10 then [digitChar n]
    else natToStrAux fuel (n / 10) ++ [digitChar (n % 10)]

/-- Go `strconv.Itoa` restricted to naturals (all counts and lengths the
code prints are non-negative). -/
def natToStr (n : Nat) : Str := natToStrAux (n + 1) n

/-- Fold a digit string into the natural number it denotes. -/
def digitsToNat (s : Str) : Nat := s.foldl (fun acc c => acc * 10 + digitVal c) 0

/-- Decimal digit-string to `Nat`: `none` unless the string is a non-empty
run of ASCII digits. -/
def strToNat? (s : Str) : Option Nat :=
  if s ≠ [] ∧ s.all isDigitB then some (digitsToNat s) else none

/-- Go `strconv.Atoi`: optional sign followed by at least one digit.
Go's int64 range check is not modelled; no claim depends on overflow. -/
def goAtoi (s : Str) : Option Int :=
  match s with
  | [] => none
  | c :: rest =>
    if c = '+' then (strToNat? rest).map (fun n => (n : Int))
    else if c = '-' then (strToNat? rest).map (fun n => -(n : Int))
    else (strToNat? s).map (fun n => (n : Int))

/-! ## RESP serializer (`app/protocol/serializer.go`) -/

/-- `protocol.SimpleString`: `+` payload CRLF. -/
def simpleString (s : Str) : Str := '+' :: s ++ crlf

/-- `protocol.Error`: `-ERR ` message CRLF. -/
def errorReply (s : Str) : Str := "-ERR ".data ++ s ++ crlf

/-- `protocol.BulkString`: `$` len CRLF payload CRLF. -/
def bulkString (s : Str) : Str := '$' :: natToStr s.length ++ crlf ++ s ++ crlf

/-- `protocol.Nil`: the null bulk `$-1` CRLF. -/
def nilBulk : Str := "$-1".data ++ crlf

/-- `protocol.SimpleInteger`: `:` decimal CRLF (counts are non-negative). -/
def simpleInteger (n : Nat) : Str := ':' :: natToStr n ++ crlf

/-- `protocol.BulkArray`: `*` n CRLF followed by the bulk encodings. -/
def bulkArray (elems : List Str) : Str :=
  '*' :: natToStr elems.length ++ crlf ++ (elems.map bulkString).flatten

/-- `protocol.FileContent`: `$` len CRLF payload with NO trailing CRLF
(snapshot framing). -/
def fileContent (content : Str) : Str :=
  '$' :: natToStr content.length ++ crlf ++ content

/-! ## ASCII case mapping (`strings.ToUpper` / `strings.ToLower` on the
ASCII inputs this system manipulates) -/

/-- ASCII uppercase of one character. -/
def asciiUpperChar (c : Char) : Char :=
  if 'a' ≤ c ∧ c ≤ 'z' then Char.ofNat (c.toNat - 32) else c

/-- ASCII uppercase of a byte string. -/
def asciiUpper (s : Str) : Str := s.map asciiUpperChar

/-- ASCII lowercase of one character. -/
def asciiLowerChar (c : Char) : Char :=
  if 'A' ≤ c ∧ c ≤ 'Z' then Char.ofNat (c.toNat + 32) else c

/-- ASCII lowercase of a byte string. -/
def asciiLower (s : Str) : Str := s.map asciiLowerChar

/-! ## Go `time.ParseDuration` (`executeSet` calls it on `args[3] + "ms"`) -/

/-- `leadingInt`: consume a maximal run of leading digits into a uint64,
with Go's overflow error (`none`): before each digit the accumulator may
not exceed `1<<63 / 10`, and after it may not exceed `1<<63`. -/
def leadingIntAux (acc : Nat) : Str → Option (Nat × Str)
  | [] => some (acc, [])
  | c :: rest =>
    if isDigitB c then
      if 922337203685477580 < acc then none
      else
        let x := acc * 10 + digitVal c
        if 9223372036854775808 < x then none
        else leadingIntAux x rest
    else some (acc, c :: rest)

/-- `leadingFraction`: consume a maximal run of digits after the decimal
point, returning (value, scale, rest).  On overflow Go keeps consuming
digits but stops accumulating value and scale (the `overflow` flag);
the bound `(1<<63 - 1) / 10` equals `1<<63 / 10` after truncation. -/
def leadingFractionAux (acc scale : Nat) (ovf : Bool) : Str → Nat × Nat × Str
  | [] => (acc, scale, [])
  | c :: rest =>
    if isDigitB c then
      if ovf then leadingFractionAux acc scale true rest
      else if 922337203685477580 < acc then leadingFractionAux acc scale true rest
      else
        let y := acc * 10 + digitVal c
        if 9223372036854775808 < y then leadingFractionAux acc scale true rest
        else leadingFractionAux y (scale * 10) ovf rest
    else (acc, scale, c :: rest)

/-- Go's duration unit map, in nanoseconds. -/
def unitNanos (u : Str) : Option Nat :=
  if u = "ns".data then some 1
  else if u = "us".data then some 1000
  else if u = "µs".data then some 1000
  else if u = "μs".data then some 1000
  else if u = "ms".data then some 1000000
  else if u = "s".data then some 1000000000
  else if u = "m".data then some 60000000000
  else if u = "h".data then some 3600000000000
  else none

/-- The main loop of `time.ParseDuration`: a sequence of
`number [fraction] unit` groups accumulated into the uint64 `d`, with
Go's overflow errors: `leadingInt` overflow, `v > 1<<63 / unit` before
the unit multiply, `v > 1<<63` after adding a fraction, and `d > 1<<63`
after each addition (the addition itself wraps at `2^64` as uint64
addition does).  Fuel makes the recursion structural; each iteration
consumes at least two characters, so fuel equal to the input length
always suffices.  Go computes the fractional contribution through
`float64`; here it is the exact floor `f * unit / scale`, which agrees
except at float-rounding corner cases of 16-or-more-digit fractions. -/
def durLoop : Nat → Nat → Str → Option Nat
  | _, d, [] => some d
  | 0, _, _ :: _ => none
  | fuel + 1, d, c :: cs =>
    if !(c = '.' || isDigitB c) then none
    else
      match leadingIntAux 0 (c :: cs) with
      | none => none
      | some vp =>
        let pre : Bool := decide (vp.2.length ≠ (c :: cs).length)
        let fr : Nat × Nat × Str × Bool :=
          match vp.2 with
          | '.' :: t =>
            let f := leadingFractionAux 0 1 false t
            (f.1, f.2.1, f.2.2, decide (f.2.2.length ≠ t.length))
          | _ => (0, 1, vp.2, false)
        if !pre && !fr.2.2.2 then none
        else
          let u := fr.2.2.1.takeWhile (fun ch => !(ch = '.' || isDigitB ch))
          let s3 := fr.2.2.1.dropWhile (fun ch => !(ch = '.' || isDigitB ch))
          if u = [] then none
          else
            match unitNanos u with
            | none => none
            | some unit =>
              if 9223372036854775808 / unit < vp.1 then none
              else
                let v1 := vp.1 * unit
                let v2 := if 0 < fr.1 then v1 + fr.1 * unit / fr.2.1 else v1
                if 0 < fr.1 ∧ 9223372036854775808 < v2 then none
                else
                  let d1 := (d + v2) % 18446744073709551616
                  if 9223372036854775808 < d1 then none
                  else durLoop fuel d1 s3

/-- Go `time.ParseDuration`, in nanoseconds.  The final uint64 total is
negated for a leading `-` (where `1<<63` is representable as the int64
minimum) and otherwise must fit in an int64. -/
def goParseDuration (s : Str) : Option Int :=
  match s with
  | [] => none
  | _ =>
    let signed : Bool × Str :=
      match s with
      | '-' :: t => (true, t)
      | '+' :: t => (false, t)
      | _ => (false, s)
    if signed.2 = "0".data then some 0
    else if signed.2 = [] then none
    else
      match durLoop signed.2.length 0 signed.2 with
      | none => none
      | some d =>
        if signed.1 then some (-(d : Int))
        else if 9223372036854775807 < d then none
        else some (d : Int)

/-! ## Store (`app/storage/storage.go`) -/

/-- `storage.KVRecord`: value bytes plus optional absolute expiration
instant (Go `time.Time`, modelled as `Int` nanoseconds). -/
structure KVRecord where
  value : Str
  expireAt : Option Int
deriving DecidableEq, Repr

/-- The `sync.Map` of the store, modelled as an association list with at
most one binding per key. -/
abbrev Store := List (Str × KVRecord)

/-- `sync.Map.Load`: the record bound to `k`, if any. -/
def storeGet : Store → Str → Option KVRecord
  | [], _ => none
  | (k', r) :: rest, k => if k' = k then some r else storeGet rest k

/-- Remove any binding for `k`. -/
def eraseKey (st : Store) (k : Str) : Store :=
  st.filter (fun p => decide (p.1 ≠ k))

/-- `storage.Set` / `sync.Map.Store`: bind `k` to `r`, replacing any prior
binding. -/
def storeSet (st : Store) (k : Str) (r : KVRecord) : Store :=
  (k, r) :: eraseKey st k

/-- `storage.Del`: `none` models the "key does not exist" error; otherwise
the store with the binding removed. -/
def storeDel (st : Store) (k : Str) : Option Store :=
  match storeGet st k with
  | none => none
  | some _ => some (eraseKey st k)

/-! ## Command executors (`app/commands/handler.go`; the replication-aware
variant's executors for SET/GET are the same code line for line) -/

/-- Result of one `execute*` call: the reply bytes, whether the Go `error`
return was non-nil, and the store afterwards. -/
structure ExecResult where
  msg : Str
  isErr : Bool
  store : Store
deriving DecidableEq, Repr

/-- `executeSet`: `now` is the Go `time.Now()` instant in nanoseconds. -/
def executeSet (now : Int) (st : Store) (args : List Str) : ExecResult :=
  match args with
  | k :: v :: opt =>
    match opt with
    | [] => ⟨simpleString "OK".data, false, storeSet st k ⟨v, none⟩⟩
    | tok :: rest =>
      if asciiLower tok = "px".data then
        match rest with
        | [] => ⟨errorReply "SET command with PX requires 4 arguments".data, true, st⟩
        | d :: _ =>
          match goParseDuration (d ++ "ms".data) with
          | none => ⟨errorReply "Invalid expiration time".data, true, st⟩
          | some dur =>
            ⟨simpleString "OK".data, false, storeSet st k ⟨v, some (now + dur)⟩⟩
      else ⟨errorReply "Unsupported expiration format, only PX is supported".data, true, st⟩
  | _ => ⟨errorReply "SET command requires at least 2 arguments".data, true, st⟩

/-- `executeGet`.  The storage type-assertion failure branch is
unreachable (only `*KVRecord` values are ever stored) and is not
modelled.  Expiry comparison is Go's `ExpireAt.Before(time.Now())`,
i.e. strict `<`. -/
def executeGet (now : Int) (st : Store) (args : List Str) : ExecResult :=
  match args with
  | [k] =>
    match storeGet st k with
    | none => ⟨nilBulk, false, st⟩
    | some r =>
      match r.expireAt with
      | some t => if t < now then ⟨nilBulk, false, st⟩ else ⟨bulkString r.value, false, st⟩
      | none => ⟨bulkString r.value, false, st⟩
  | _ => ⟨errorReply "GET command requires exactly 1 argument".data, true, st⟩

/-- The loop body of `executeDel`: try to delete each key in order,
counting the deletions that did not error. -/
def delLoop : Store → List Str → Nat → Store × Nat
  | st, [], count => (st, count)
  | st, k :: rest, count =>
    match storeDel st k with
    | none => delLoop st rest count
    | some st' => delLoop st' rest (count + 1)

/-- `executeDel`: integer reply counting the keys whose delete succeeded. -/
def executeDel (st : Store) (args : List Str) : ExecResult :=
  let r := delLoop st args 0
  ⟨simpleInteger r.2, false, r.1⟩

/-- `executePing` of the basic handler (`app/commands/handler.go` and the
replication variant of the same repo): replies PONG regardless of
arguments. -/
def executePing (args : List Str) : Str × Bool :=
  (simpleString "PONG".data, false)

/-- `executePing` of the replication-aware handler (the `commands` variant
with INFO/REPLCONF/PSYNC): rejects any argument. -/
def executePingChecked (args : List Str) : Str × Bool :=
  if args.length ≠ 0 then
    (errorReply "PING command does not require any arguments".data, true)
  else (simpleString "PONG".data, false)

/-! ## RESP incremental decoder (`app/protocol/parser.go`, the variant with
`*`, `+` and `$` outer frames) -/

/-- `protocol.Command`: upper-cased name plus argument byte strings. -/
structure Command where
  name : Str
  args : List Str
deriving DecidableEq, Repr

/-- `protocol.NewCommand`: upper-cases the name. -/
def mkCommand (name : Str) (args : List Str) : Command :=
  ⟨asciiUpper name, args⟩

/-- `bufio.Reader.ReadString('\n')`: the segment up to and including the
first newline, plus the rest; `none` models the `io.EOF` of a stream with
no newline left. -/
def readUntilNL : Str → Option (Str × Str)
  | [] => none
  | c :: cs =>
    if c = '\n' then some ([c], cs)
    else
      match readUntilNL cs with
      | none => none
      | some (l, r) => some (c :: l, r)

/-- `readLine`: a full CRLF-terminated line with the terminator stripped.
Errors are the model's stand-in for the Go `error` values. -/
def readLine (s : Str) : Except String (Str × Str) :=
  match readUntilNL s with
  | none => .error "EOF"
  | some (line, rest) =>
    if 2 ≤ line.length ∧ line.getD (line.length - 2) ' ' = '\r' then
      .ok (line.take (line.length - 2), rest)
    else .error "protocol error: expected CRLF ending"

/-- The payload phase of `readBulkString` once the `$len` line is parsed:
`io.ReadFull` of the payload then of the CRLF.  Go would panic (`make`
with negative size) on a negative length; that branch is modelled as an
error and never reached by well-formed input. -/
def bulkPayload (len : Int) (s : Str) : Except String (Str × Str) :=
  if len < 0 then .error "negative bulk length"
  else
    let n := len.toNat
    if s.length < n then .error "unexpected EOF in bulk payload"
    else
      let payload := s.take n
      let rest1 := s.drop n
      if rest1.length < 2 then .error "unexpected EOF after bulk payload"
      else if rest1.take 2 = crlf then .ok (payload, rest1.drop 2)
      else .error "expected CRLF after bulk string"

/-- `readBulkString`: `$` len CRLF, exactly `len` payload bytes, CRLF. -/
def readBulkString (s : Str) : Except String (Str × Str) := do
  let lr ← readLine s
  match lr.1 with
  | '$' :: lenStr =>
    match goAtoi lenStr with
    | none => .error "invalid bulk length"
    | some len => bulkPayload len lr.2
  | _ => .error "expected bulk string"

/-- The `for i := 0; i < argCount; i++` loop of `readCommand`. -/
def readArgs : Nat → Str → Except String (List Str × Str)
  | 0, s => .ok ([], s)
  | n + 1, s => do
    let ar ← readBulkString s
    let rest ← readArgs n ar.2
    .ok (ar.1 :: rest.1, rest.2)

/-- The element phase of `readCommand` once the `*count` line is parsed:
read `count` bulk strings (none when the count is negative, matching the
Go `for` loop) and build the command from them. -/
def readCommandArgs (cnt : Int) (s : Str) : Except String (Command × Str) := do
  let ar ← readArgs cnt.toNat s
  match ar.1 with
  | [] => .error "empty command"
  | name :: rest => .ok (mkCommand name rest, ar.2)

/-- `readCommand`: a `*`-prefixed array of bulk strings; the first element
is the command name.  A negative or zero count leaves the argument list
empty, which is the "empty command" error. -/
def readCommand (s : Str) : Except String (Command × Str) := do
  let lr ← readLine s
  match lr.1 with
  | '*' :: cntStr =>
    match goAtoi cntStr with
    | none => .error "invalid array length"
    | some cnt => readCommandArgs cnt lr.2
  | _ => .error "expected array"

/-- Go `strings.Split(s, " ")`: split at every space, keeping empty
fields; always returns at least one field. -/
def splitOnSpace : Str → List Str
  | [] => [[]]
  | c :: rest =>
    if c = ' ' then [] :: splitOnSpace rest
    else
      match splitOnSpace rest with
      | [] => [[c]]
      | g :: gs => (c :: g) :: gs

/-- `readResponse`: a `+` simple-string line turned into a synthetic
command (first space-delimited token is the name). -/
def readResponse (s : Str) : Except String (Command × Str) := do
  let lr ← readLine s
  match lr.1 with
  | '+' :: content =>
    match splitOnSpace content with
    | [] => .error "unreachable: split is never empty"
    | p :: ps => .ok (mkCommand p ps, lr.2)
  | _ => .error "expected simple string"

/-- `readBulkRaw`: `$` len CRLF then exactly `len` payload bytes with no
trailing CRLF (snapshot framing). -/
def readBulkRaw (s : Str) : Except String (Str × Str) := do
  let lr ← readLine s
  match lr.1 with
  | '$' :: lenStr =>
    match goAtoi lenStr with
    | none => .error "invalid bulk length"
    | some len =>
      if len < 0 then .error "negative bulk length"
      else
        let n := len.toNat
        if lr.2.length < n then .error "unexpected EOF in bulk payload"
        else .ok (lr.2.take n, lr.2.drop n)
  | _ => .error "expected bulk string"

/-- `protocol.ParseResult`.  Go tests `len(RDBDump) == 0` before storing a
dump, so nil and empty are indistinguishable there; the dump is a plain
byte string defaulting to empty. -/
structure ParseResult where
  commands : List Command
  rdbDump : Str
deriving DecidableEq, Repr

/-- The loop of `Parse`: peek the first byte, read one frame, repeat.
Fuel makes the recursion structural; each frame consumes at least one
byte, so the `s.length + 1` supplied by `Parse` never runs out. -/
def parseLoop : Nat → Str → List Command → Str → ParseResult × Option String
  | _, [], cmds, rdb => (⟨cmds, rdb⟩, none)
  | 0, _ :: _, cmds, rdb => (⟨cmds, rdb⟩, some "out of fuel")
  | fuel + 1, c :: rest, cmds, rdb =>
    if c = '*' then
      match readCommand (c :: rest) with
      | .error e => (⟨cmds, rdb⟩, some e)
      | .ok (cmd, rest1) => parseLoop fuel rest1 (cmds ++ [cmd]) rdb
    else if c = '+' then
      match readResponse (c :: rest) with
      | .error e => (⟨cmds, rdb⟩, some e)
      | .ok (cmd, rest1) => parseLoop fuel rest1 (cmds ++ [cmd]) rdb
    else if c = '$' then
      match readBulkRaw (c :: rest) with
      | .error e => (⟨cmds, rdb⟩, some e)
      | .ok (payload, rest1) =>
        parseLoop fuel rest1 cmds (if rdb.isEmpty then payload else rdb)
    else (⟨cmds, rdb⟩, some "unsupported RESP message start byte")

/-- `DefaultCommandParser.Parse`: the decoded frames together with the
Go `error` return (`none` when err is nil). -/
def Parse (s : Str) : ParseResult × Option String :=
  parseLoop (s.length + 1) s [] []

/-- The RESP command-array encoding of a command: name then arguments as
a `BulkArray` (as built by the replication fan-out and by clients). -/
def encodeCmd (c : Command) : Str := bulkArray (c.name :: c.args)

/-- Concatenation of the encodings of a command batch. -/
def encodeCommands (cs : List Command) : Str := (cs.map encodeCmd).flatten

/-- What the parser makes of a decoded command: the name upper-cased. -/
def normCmd (c : Command) : Command := mkCommand c.name c.args

/-! ## Session-level SET handling (response suppression) -/

/-- `handleSet` of the replication-aware handler: the reply is written
only when the node is not a slave; a slave applies SET silently.
Returns the list of wire writes plus the resulting store. -/
def handleSetRepl (isSlave : Bool) (now : Int) (st : Store) (args : List Str) :
    List Str × Store :=
  let r := executeSet now st args
  (if isSlave then [] else [r.msg], r.store)

/-- `handleSet` of the basic handler (`app/commands/handler.go`): the
reply is always written to the originating connection, including on a
replica's inbound-from-primary session
(`ReplicaServer.handleReplicationConnection` calls the same handler). -/
def handleSetBasic (now : Int) (st : Store) (args : List Str) :
    List Str × Store :=
  let r := executeSet now st args
  ([r.msg], r.store)

/-! ## PSYNC (`executePsync` of the REPLCONF/PSYNC-capable handler that
ships with this repo's parser variant) -/

/-- `executePsync`: validates `? -1`, then replies FULLRESYNC with the
hard-coded `replID := "test"` from the source (the configured
40-character `ReplicationID` is not consulted). -/
def executePsync (args : List Str) : Str × Bool :=
  if args.length ≠ 2 then
    (errorReply "PSYNC command requires exactly 2 arguments".data, true)
  else if ¬(args.getD 0 [] = "?".data ∧ args.getD 1 [] = "-1".data) then
    (errorReply "PSYNC command only supports '?' and '-1' arguments".data, true)
  else
    (simpleString ("FULLRESYNC ".data ++ "test".data ++ " 0".data), false)

/-- Value of one hex digit character. -/
def hexVal (c : Char) : Nat :=
  if '0' ≤ c ∧ c ≤ '9' then c.toNat - 48
  else if 'a' ≤ c ∧ c ≤ 'f' then c.toNat - 87
  else if 'A' ≤ c ∧ c ≤ 'F' then c.toNat - 55
  else 0

/-- `hex.DecodeString` (the source ignores its error return). -/
def hexDecode : Str → Str
  | h :: l :: rest => Char.ofNat (hexVal h * 16 + hexVal l) :: hexDecode rest
  | _ => []

/-- The hex literal of the canonical empty RDB snapshot in `getDBFile`. -/
def emptyDBFileHex : Str :=
  ("524544495330303131fa0972656469732d76657205372e322e30fa0a72656469732d62697473c040" ++
   "fa056374696d65c26d08bc65fa08757365642d6d656dc2b0c41000fa08616f662d62617365c000ff" ++
   "f06e3bfec0ff5aa2").data

/-- The decoded snapshot payload bytes. -/
def dbFileContent : Str := hexDecode emptyDBFileHex

/-- `getDBFile`: the snapshot framed as `$len` CRLF payload, no trailing
CRLF. -/
def getDBFile : Str := fileContent dbFileContent

/-- `handlePsync`: the ordered wire writes — the FULLRESYNC reply, then
(unless the command errored) the snapshot bulk. -/
def handlePsync (args : List Str) : List Str :=
  let r := executePsync args
  if r.2 then [r.1] else [r.1, getDBFile]

/-! ## INFO (`infoReplication` of the replication-aware handler) -/

/-- The key/value pairs `infoReplication` inserts into its Go map, in
insertion order. -/
def replParams (isSlave : Bool) (replid : Str) : List (Str × Str) :=
  if isSlave then [("role".data, "slave".data)]
  else
    [("role".data, "master".data),
     ("master_repl_offset".data, "0".data),
     ("master_replid".data, replid)]

/-- The INFO body for one iteration order of the Go map.  `range` over a
Go map yields an unspecified, randomized order, so the order is a
parameter ranging over the permutations of `replParams`. -/
def infoReplicationWithOrder (ord : List (Str × Str)) : Str :=
  "#Replication".data ++ (ord.map (fun p => crlf ++ p.1 ++ ':' :: p.2)).flatten

/-! ## Decimal-rendering lemmas -/

theorem digitVal_digitChar (d : Nat) (h : d < 10) : digitVal (digitChar d) = d := by
  interval_cases d <;> decide

theorem isDigitB_digitChar (d : Nat) (h : d < 10) : isDigitB (digitChar d) = true := by
  interval_cases d <;> decide

theorem natToStrAux_all_digits (fuel : Nat) :
    ∀ n, n < fuel → (natToStrAux fuel n).all isDigitB = true := by
  induction fuel with
  | zero => intro n h; omega
  | succ fuel ih =>
    intro n h
    by_cases h10 : n < 10
    · simp [natToStrAux, h10, isDigitB_digitChar _ h10]
    · have hdiv : n / 10 < fuel := by omega
      simp [natToStrAux, h10, List.all_append, ih _ hdiv,
        isDigitB_digitChar (n % 10) (Nat.mod_lt _ (by omega))]

theorem natToStrAux_ne_nil (fuel n : Nat) (h : n < fuel) : natToStrAux fuel n ≠ [] := by
  cases fuel with
  | zero => omega
  | succ fuel =>
    by_cases h10 : n < 10 <;> simp [natToStrAux, h10]

theorem digitsToNat_natToStrAux (fuel : Nat) :
    ∀ n, n < fuel → digitsToNat (natToStrAux fuel n) = n := by
  induction fuel with
  | zero => intro n h; omega
  | succ fuel ih =>
    intro n h
    by_cases h10 : n < 10
    · simp [natToStrAux, h10, digitsToNat, digitVal_digitChar _ h10]
    · have hdiv : n / 10 < fuel := by omega
      have hmod : n % 10 < 10 := Nat.mod_lt _ (by omega)
      have := ih _ hdiv
      simp only [natToStrAux, h10, if_false, digitsToNat, List.foldl_append,
        List.foldl_cons, List.foldl_nil] at this ⊢
      rw [this, digitVal_digitChar _ hmod]
      omega

theorem natToStr_all_digits (n : Nat) : (natToStr n).all isDigitB = true :=
  natToStrAux_all_digits (n + 1) n (Nat.lt_succ_self n)

theorem natToStr_ne_nil (n : Nat) : natToStr n ≠ [] :=
  natToStrAux_ne_nil (n + 1) n (Nat.lt_succ_self n)

theorem digitsToNat_natToStr (n : Nat) : digitsToNat (natToStr n) = n :=
  digitsToNat_natToStrAux (n + 1) n (Nat.lt_succ_self n)

theorem strToNat?_natToStr (n : Nat) : strToNat? (natToStr n) = some n := by
  simp [strToNat?, natToStr_ne_nil n, natToStr_all_digits n, digitsToNat_natToStr n]

theorem digit_notin_special {c : Char} (h : isDigitB c = true) :
    c ≠ '+' ∧ c ≠ '-' ∧ c ≠ '\n' ∧ c ≠ '\r' := by
  refine ⟨?_, ?_, ?_, ?_⟩ <;> rintro rfl <;> simp [isDigitB] at h

theorem natToStr_head_digit (n : Nat) :
    ∃ c rest, natToStr n = c :: rest ∧ isDigitB c = true := by
  rcases h : natToStr n with _ | ⟨c, rest⟩
  · exact absurd h (natToStr_ne_nil n)
  · refine ⟨c, rest, rfl, ?_⟩
    have := natToStr_all_digits n
    rw [h] at this
    simp [List.all_cons] at this
    exact this.1

theorem goAtoi_natToStr (n : Nat) : goAtoi (natToStr n) = some (n : Int) := by
  obtain ⟨c, rest, he, hc⟩ := natToStr_head_digit n
  obtain ⟨h1, h2, _, _⟩ := digit_notin_special hc
  have key : goAtoi (c :: rest) = (strToNat? (c :: rest)).map (fun m => (m : Int)) := by
    simp [goAtoi, h1, h2]
  rw [he, key, ← he, strToNat?_natToStr]
  rfl

theorem natToStr_no_nl (n : Nat) : '\n' ∉ natToStr n := by
  intro hmem
  have := natToStr_all_digits n
  rw [List.all_eq_true] at this
  have := this _ hmem
  simp [isDigitB] at this

/-! ## Line-reader lemmas -/

theorem readUntilNL_append (content rest : Str) (h : '\n' ∉ content) :
    readUntilNL (content ++ '\n' :: rest) = some (content ++ ['\n'], rest) := by
  induction content with
  | nil => simp [readUntilNL]
  | cons c cs ih =>
    have hc : ¬(c = '\n') := fun hcc => h (by simp [hcc])
    have hcs : '\n' ∉ cs := fun hm => h (by simp [hm])
    simp [readUntilNL, hc, ih hcs]

theorem getD_append_self (l : List Char) (a b : Char) (r : List Char) :
    (l ++ a :: r).getD l.length b = a := by
  induction l with
  | nil => rfl
  | cons x xs ih => simpa using ih

theorem take_append_self (l r : List Char) : (l ++ r).take l.length = l := by
  induction l with
  | nil => rfl
  | cons x xs ih => simpa using ih

theorem drop_append_self (l r : List Char) : (l ++ r).drop l.length = r := by
  induction l with
  | nil => rfl
  | cons x xs ih => simpa using ih

theorem readLine_append (content rest : Str) (h : '\n' ∉ content) :
    readLine (content ++ crlf ++ rest) = .ok (content, rest) := by
  have h2 : '\n' ∉ content ++ ['\r'] := by
    intro hm
    rcases List.mem_append.mp hm with hm | hm
    · exact h hm
    · simp at hm
  have hs : readUntilNL (content ++ crlf ++ rest) = some (content ++ ['\r', '\n'], rest) := by
    have e1 : content ++ crlf ++ rest = (content ++ ['\r']) ++ '\n' :: rest := by
      simp [crlf]
    rw [e1, readUntilNL_append _ _ h2]
    simp
  have hlen : (content ++ ['\r', '\n']).length = content.length + 2 := by simp
  have e3 : content.length + 2 - 2 = content.length := by omega
  have hcond : 2 ≤ (content ++ ['\r', '\n']).length ∧
      (content ++ ['\r', '\n']).getD ((content ++ ['\r', '\n']).length - 2) ' ' = '\r' := by
    refine ⟨by omega, ?_⟩
    rw [hlen, e3]
    exact getD_append_self content '\r' ' ' ['\n']
  have htake : (content ++ ['\r', '\n']).take ((content ++ ['\r', '\n']).length - 2)
      = content := by
    rw [hlen, e3]
    exact take_append_self content _
  have key : readLine (content ++ crlf ++ rest)
      = (if 2 ≤ (content ++ ['\r', '\n']).length ∧
            (content ++ ['\r', '\n']).getD ((content ++ ['\r', '\n']).length - 2) ' ' = '\r'
          then Except.ok ((content ++ ['\r', '\n']).take ((content ++ ['\r', '\n']).length - 2),
            rest)
          else Except.error "protocol error: expected CRLF ending") := by
    rw [readLine, hs]
  rw [key, if_pos hcond, htake]

/-! ## Encode/decode round-trip lemmas -/

theorem except_bind_ok {α β : Type} (a : α) (f : α → Except String β) :
    (bind (Except.ok a) f : Except String β) = f a := rfl

theorem no_nl_dollar_len (e : Str) : '\n' ∉ '$' :: natToStr e.length := by
  intro hm
  rcases List.mem_cons.mp hm with hm | hm
  · simp at hm
  · exact natToStr_no_nl _ hm

theorem bulkPayload_exact (e rest : Str) :
    bulkPayload (e.length : Int) (e ++ (crlf ++ rest)) = .ok (e, rest) := by
  have h0 : ¬((e.length : Int) < 0) := by omega
  have ht : ((e.length : Int)).toNat = e.length := by omega
  rw [bulkPayload, if_neg h0]
  simp only [ht, take_append_self, drop_append_self]
  rw [if_neg (by simp [crlf]), if_neg (by simp [crlf]),
    show List.take 2 (crlf ++ rest) = crlf from take_append_self crlf rest,
    if_pos rfl,
    show List.drop 2 (crlf ++ rest) = rest from drop_append_self crlf rest]

theorem readBulkString_encode (e rest : Str) :
    readBulkString (bulkString e ++ rest) = .ok (e, rest) := by
  have hsplit : bulkString e ++ rest
      = ('$' :: natToStr e.length) ++ crlf ++ (e ++ (crlf ++ rest)) := by
    simp [bulkString]
  have hline : readLine (bulkString e ++ rest)
      = .ok ('$' :: natToStr e.length, e ++ (crlf ++ rest)) := by
    rw [hsplit]
    exact readLine_append _ _ (no_nl_dollar_len e)
  have key : readBulkString (bulkString e ++ rest)
      = (match goAtoi (natToStr e.length) with
         | none => Except.error "invalid bulk length"
         | some len => bulkPayload len (e ++ (crlf ++ rest))) := by
    rw [readBulkString, hline]
    rfl
  rw [key, goAtoi_natToStr]
  exact bulkPayload_exact e rest

theorem readArgs_encode (elems : List Str) :
    ∀ rest, readArgs elems.length ((elems.map bulkString).flatten ++ rest)
      = .ok (elems, rest) := by
  induction elems with
  | nil =>
    intro rest
    simp [readArgs]
  | cons e es ih =>
    intro rest
    have hsplit : (((e :: es).map bulkString).flatten) ++ rest
        = bulkString e ++ ((es.map bulkString).flatten ++ rest) := by
      simp
    rw [List.length_cons, hsplit]
    show (do
      let ar ← readBulkString (bulkString e ++ ((es.map bulkString).flatten ++ rest))
      let r ← readArgs es.length ar.2
      pure (ar.1 :: r.1, r.2) : Except String (List Str × Str)) = .ok (e :: es, rest)
    rw [readBulkString_encode]
    show (do
      let r ← readArgs es.length ((es.map bulkString).flatten ++ rest)
      pure (e :: r.1, r.2) : Except String (List Str × Str)) = .ok (e :: es, rest)
    rw [ih rest]
    rfl

theorem no_nl_star_len (n : Nat) : '\n' ∉ '*' :: natToStr n := by
  intro hm
  rcases List.mem_cons.mp hm with hm | hm
  · simp at hm
  · exact natToStr_no_nl _ hm

theorem readCommand_encode (c : Command) (rest : Str) :
    readCommand (encodeCmd c ++ rest) = .ok (normCmd c, rest) := by
  have hsplit : encodeCmd c ++ rest
      = ('*' :: natToStr (c.args.length + 1)) ++ crlf ++
          (((c.name :: c.args).map bulkString).flatten ++ rest) := by
    simp [encodeCmd, bulkArray]
  have hline : readLine (encodeCmd c ++ rest)
      = .ok ('*' :: natToStr (c.args.length + 1),
          ((c.name :: c.args).map bulkString).flatten ++ rest) := by
    rw [hsplit]
    exact readLine_append _ _ (no_nl_star_len _)
  have key : readCommand (encodeCmd c ++ rest)
      = (match goAtoi (natToStr (c.args.length + 1)) with
         | none => Except.error "invalid array length"
         | some cnt =>
           readCommandArgs cnt (((c.name :: c.args).map bulkString).flatten ++ rest)) := by
    rw [readCommand, hline]
    rfl
  rw [key, goAtoi_natToStr]
  show readCommandArgs ((c.args.length + 1 : Nat) : Int)
      (((c.name :: c.args).map bulkString).flatten ++ rest) = .ok (normCmd c, rest)
  have ht : (((c.args.length + 1 : Nat) : Int)).toNat = c.args.length + 1 := by omega
  have hargs : readArgs (((c.args.length + 1 : Nat) : Int)).toNat
      (((c.name :: c.args).map bulkString).flatten ++ rest)
      = .ok (c.name :: c.args, rest) := by
    rw [ht]
    have := readArgs_encode (c.name :: c.args) rest
    simpa using this
  rw [readCommandArgs, hargs]
  rfl

theorem parseLoop_nil (fuel : Nat) (cmds : List Command) (rdb : Str) :
    parseLoop fuel [] cmds rdb = (⟨cmds, rdb⟩, none) := by
  cases fuel <;> rfl

theorem parseLoop_cons_cmd (fuel : Nat) (c : Command) (rest : Str)
    (cmds : List Command) (rdb : Str) :
    parseLoop (fuel + 1) (encodeCmd c ++ rest) cmds rdb
      = parseLoop fuel rest (cmds ++ [normCmd c]) rdb := by
  have hexp : encodeCmd c ++ rest
      = '*' :: (natToStr (c.args.length + 1) ++ crlf ++
          ((c.name :: c.args).map bulkString).flatten ++ rest) := by
    simp [encodeCmd, bulkArray]
  have hcmd : readCommand ('*' :: (natToStr (c.args.length + 1) ++ crlf ++
      ((c.name :: c.args).map bulkString).flatten ++ rest)) = .ok (normCmd c, rest) := by
    rw [← hexp]
    exact readCommand_encode c rest
  rw [hexp]
  simp only [parseLoop, hcmd]
  simp

theorem encodeCommands_cons (c : Command) (cs : List Command) :
    encodeCommands (c :: cs) = encodeCmd c ++ encodeCommands cs := by
  simp [encodeCommands]

theorem encodeCommands_length_ge (cs : List Command) :
    cs.length ≤ (encodeCommands cs).length := by
  induction cs with
  | nil => simp [encodeCommands]
  | cons c cs ih =>
    rw [encodeCommands_cons]
    have : encodeCmd c = '*' :: (natToStr (c.args.length + 1) ++ crlf ++
        ((c.name :: c.args).map bulkString).flatten) := by
      simp [encodeCmd, bulkArray]
    simp only [List.length_append, List.length_cons, this]
    omega

theorem parseLoop_encodeAll (cs : List Command) :
    ∀ fuel tail cmds rdb, cs.length ≤ fuel →
      parseLoop fuel (encodeCommands cs ++ tail) cmds rdb
        = parseLoop (fuel - cs.length) tail (cmds ++ cs.map normCmd) rdb := by
  induction cs with
  | nil =>
    intro fuel tail cmds rdb _
    simp [encodeCommands]
  | cons c cs ih =>
    intro fuel tail cmds rdb hfuel
    rcases fuel with _ | fuel
    · simp at hfuel
    · rw [encodeCommands_cons, List.append_assoc, parseLoop_cons_cmd,
        ih fuel tail _ rdb (by simp at hfuel; omega)]
      simp

/-! ## Store lemmas -/

theorem storeGet_storeSet_self (st : Store) (k : Str) (r : KVRecord) :
    storeGet (storeSet st k r) k = some r := by
  simp [storeSet, storeGet]

theorem storeGet_eraseKey (st : Store) (k x : Str) :
    storeGet (eraseKey st k) x = if x = k then none else storeGet st x := by
  induction st with
  | nil => simp [eraseKey, storeGet]
  | cons p rest ih =>
    obtain ⟨q, r⟩ := p
    have hrest : eraseKey ((q, r) :: rest) k
        = if q = k then eraseKey rest k else (q, r) :: eraseKey rest k := by
      by_cases hqk : q = k <;> simp [eraseKey, List.filter_cons, hqk]
    rw [hrest]
    by_cases hqk : q = k
    · rw [if_pos hqk, ih]
      by_cases hxk : x = k
      · simp [hxk]
      · have hqx : ¬ q = x := fun hh => hxk (hh.symm.trans hqk)
        simp [hxk, storeGet, hqx]
    · rw [if_neg hqk]
      by_cases hqx : q = x
      · have hxk : ¬ x = k := fun hh => hqk (hqx.trans hh)
        simp [storeGet, hqx, hxk]
      · simp [storeGet, hqx, ih]

theorem delLoop_count (ks : List Str) :
    ∀ st c, (delLoop st ks c).2
      = c + ((ks.toFinset.filter (fun k => (storeGet st k).isSome = true)).card) := by
  induction ks with
  | nil =>
    intro st c
    simp [delLoop]
  | cons k ks ih =>
    intro st c
    rcases h : storeGet st k with _ | r
    · have hdel : storeDel st k = none := by simp [storeDel, h]
      have step : (delLoop st (k :: ks) c).2 = (delLoop st ks c).2 := by
        simp only [delLoop, hdel]
      rw [step, ih st c, List.toFinset_cons, Finset.filter_insert]
      simp [h]
    · have hdel : storeDel st k = some (eraseKey st k) := by simp [storeDel, h]
      have hpk : (storeGet st k).isSome = true := by simp [h]
      have hfe : ks.toFinset.filter (fun x => (storeGet (eraseKey st k) x).isSome = true)
          = (ks.toFinset.filter (fun x => (storeGet st x).isSome = true)).erase k := by
        ext y
        by_cases hyk : y = k <;>
          simp only [Finset.mem_filter, Finset.mem_erase, storeGet_eraseKey, hyk,
            if_pos, if_neg, ite_true, ite_false, Option.isSome_none, ne_eq,
            not_true_eq_false, not_false_eq_true, false_and, and_false, true_and] <;>
          try tauto
      have step : (delLoop st (k :: ks) c).2
          = (delLoop (eraseKey st k) ks (c + 1)).2 := by
        simp only [delLoop, hdel]
      rw [step, ih (eraseKey st k) (c + 1), hfe, List.toFinset_cons, Finset.filter_insert,
        if_pos hpk]
      by_cases hk : k ∈ ks.toFinset.filter (fun x => (storeGet st x).isSome = true)
      · have h1 : 1 ≤ (ks.toFinset.filter (fun x => (storeGet st x).isSome = true)).card :=
          Finset.card_pos.mpr ⟨k, hk⟩
        rw [Finset.card_erase_of_mem hk, Finset.insert_eq_self.mpr hk]
        omega
      · rw [Finset.erase_eq_of_not_mem hk, Finset.card_insert_of_not_mem hk]
        omega

/-! ## Parser evaluation on a truncated frame -/

theorem parseLoop_truncated_frame (m : Nat) (cmds : List Command) (rdb : Str) :
    parseLoop (m + 1) ("*1\r\n$4\r\nPI".data) cmds rdb
      = (⟨cmds, rdb⟩, some "unexpected EOF in bulk payload") := rfl

/-! ## Normalisation of already-uppercase commands -/

theorem map_normCmd_eq_self {cs : List Command}
    (h : ∀ c ∈ cs, asciiUpper c.name = c.name) : cs.map normCmd = cs := by
  induction cs with
  | nil => rfl
  | cons c cs ih =>
    have hc := h c (List.mem_cons_self c cs)
    have ht : normCmd c = c := by
      cases c with
      | mk name args =>
        simp only [normCmd, mkCommand]
        simp at hc
        rw [hc]
    simp [ht, ih (fun x hx => h x (List.mem_cons_of_mem _ hx))]

/-! ## Claim theorems -/

/-- C1: after `executeSet` with args `[k, v]` (no PX option), the reply is
`+OK`, the stored record is exactly `(v, no expiration)` — fully replacing
any prior record including its expiration — and a subsequent `executeGet`
of `k` at any instant returns the bulk string of `v`. -/
theorem set_get_value_roundtrip (now now2 : Int) (st : Store) (k v : Str) :
    (executeSet now st [k, v]).msg = simpleString "OK".data ∧
    (executeSet now st [k, v]).isErr = false ∧
    storeGet (executeSet now st [k, v]).store k = some ⟨v, none⟩ ∧
    (executeGet now2 (executeSet now st [k, v]).store [k]).msg = bulkString v := by
  have hset : executeSet now st [k, v]
      = ⟨simpleString "OK".data, false, storeSet st k ⟨v, none⟩⟩ := by
    simp [executeSet]
  rw [hset]
  refine ⟨rfl, rfl, storeGet_storeSet_self st k _, ?_⟩
  simp [executeGet, storeGet_storeSet_self]

/-- C2 counterexample: encoding the command named `ping` and parsing the
result yields the command named `PING`, not the original command — the
parser upper-cases the name, so `decode(encode(v)) = v` fails as stated. -/
theorem encode_parse_uppercases_name :
    (Parse (encodeCommands [⟨"ping".data, []⟩])).1.commands = [⟨"PING".data, []⟩] ∧
    (Parse (encodeCommands [⟨"ping".data, []⟩])).1.commands ≠ [⟨"ping".data, []⟩] := by
  decide

/-- C2 (amended): for every list of commands, each with a non-empty name
that is unchanged by ASCII upper-casing, concatenating their RESP
encodings and running the parser recovers exactly the same ordered list
of commands, with no RDB dump and no error. -/
theorem parse_encode_roundtrip (cs : List Command)
    (hname : ∀ c ∈ cs, c.name ≠ [])
    (hupper : ∀ c ∈ cs, asciiUpper c.name = c.name) :
    Parse (encodeCommands cs) = (⟨cs, []⟩, none) := by
  have hfuel : cs.length ≤ (encodeCommands cs).length + 1 :=
    Nat.le_succ_of_le (encodeCommands_length_ge cs)
  have key := parseLoop_encodeAll cs ((encodeCommands cs).length + 1) [] [] [] hfuel
  rw [show encodeCommands cs ++ ([] : Str) = encodeCommands cs by simp] at key
  rw [Parse, key, parseLoop_nil]
  simp [map_normCmd_eq_self hupper]

/-- C2 witness: the round-trip theorem applied to the concrete batch
`[SET key value]`. -/
theorem parse_encode_roundtrip_witness :
    (∀ c ∈ [Command.mk "SET".data ["key".data, "value".data]], c.name ≠ []) ∧
    (∀ c ∈ [Command.mk "SET".data ["key".data, "value".data]],
      asciiUpper c.name = c.name) ∧
    Parse (encodeCommands [Command.mk "SET".data ["key".data, "value".data]])
      = (⟨[Command.mk "SET".data ["key".data, "value".data]], []⟩, none) :=
  ⟨by decide, by decide, parse_encode_roundtrip _ (by decide) (by decide)⟩

/-- C3: on PSYNC `? -1` the handler replies `+FULLRESYNC test 0` with the
hard-coded replication id `test` — NOT the configured 40-character
replication identifier — then transmits the 88-byte canonical snapshot
with a `$88` CRLF prefix and no trailing CRLF; other argument pairs and
arity are rejected with `-ERR`. -/
theorem psync_uses_hardcoded_replid :
    executePsync ["?".data, "-1".data] = (simpleString "FULLRESYNC test 0".data, false) ∧
    handlePsync ["?".data, "-1".data] = [simpleString "FULLRESYNC test 0".data, getDBFile] ∧
    (executePsync ["?".data, "-1".data]).1
      ≠ simpleString ("FULLRESYNC ".data ++
          "a123456789b123456789c123456789d123456789".data ++ " 0".data) ∧
    (executePsync ["?".data, "0".data]).2 = true ∧
    (executePsync ["?".data, "0".data]).1.take 5 = "-ERR ".data ∧
    (executePsync ["x".data, "-1".data]).2 = true ∧
    (executePsync ["?".data]).2 = true ∧
    dbFileContent.length = 88 ∧
    getDBFile = "$88\r\n".data ++ dbFileContent ∧
    getDBFile.getLast? ≠ some '\n' := by
  decide

/-- C4: a SET handled by the replication-aware handler on a slave is
applied to the store but writes nothing to the connection, while the
basic handler (which the replica server also uses for commands arriving
on its inbound-from-primary session) always writes the `+OK` reply. -/
theorem replica_set_suppression_divergence :
    handleSetRepl true 0 [] ["key".data, "value".data]
      = ([], [("key".data, ⟨"value".data, none⟩)]) ∧
    handleSetBasic 0 [] ["key".data, "value".data]
      = ([simpleString "OK".data], [("key".data, ⟨"value".data, none⟩)]) := by
  constructor <;> rfl

/-- C5 counterexample: with `key` present once, `DEL key key` replies
`:1`, not `:2` — the first occurrence deletes the key, so the duplicate
is not counted. -/
theorem del_duplicate_key_counts_once :
    (executeDel [("key".data, ⟨"v".data, none⟩)] ["key".data, "key".data]).msg
      = simpleInteger 1 ∧
    (executeDel [("key".data, ⟨"v".data, none⟩)] ["key".data, "key".data]).msg
      ≠ simpleInteger 2 := by
  decide

/-- C5 (amended): for every list L of keys supplied to DEL, the reply is
the integer count of DISTINCT keys in L that existed at the time of the
call — a duplicated existing key contributes one, not two. -/
theorem del_counts_distinct_existing_keys (st : Store) (args : List Str) :
    (executeDel st args).msg
      = simpleInteger ((args.toFinset.filter
          (fun k => (storeGet st k).isSome = true)).card) ∧
    (executeDel st args).isErr = false := by
  refine ⟨?_, rfl⟩
  have := delLoop_count args st 0
  simp only [executeDel, this]
  simp

/-- C6 counterexample: SET with PX and the negative duration `-100`, or
the fractional duration `1.5`, is accepted with `+OK` and mutates the
store — it is not rejected with `-ERR` as the claim states; conversely
SET with PX and the out-of-int64-range decimal integer
`99999999999999999999` is rejected with `-ERR` and leaves the store
unchanged, though the claim says a decimal non-negative integer count of
milliseconds must be accepted. -/
theorem set_px_negative_accepted :
    executeSet 0 [] ["key".data, "value".data, "px".data, "-100".data]
      = ⟨simpleString "OK".data, false,
          [("key".data, ⟨"value".data, some (-100000000)⟩)]⟩ ∧
    (executeSet 0 [] ["key".data, "value".data, "px".data, "1.5".data]).isErr = false ∧
    (executeSet 0 [] ["key".data, "value".data, "px".data,
      "99999999999999999999".data]).isErr = true ∧
    (executeSet 0 [] ["key".data, "value".data, "px".data,
      "99999999999999999999".data]).store = [] := by
  decide

/-- C6 (amended): with a case-insensitive `PX` token, the fourth argument
is accepted exactly when appending `ms` yields a string Go's
`time.ParseDuration` accepts (which includes fractional and negative
values); only a parse failure is rejected with `-ERR`, leaving the store
unchanged, and on success the record is stored with expiry now+duration. -/
theorem set_px_accepts_iff_duration_parses (now : Int) (st : Store) (k v t d : Str)
    (ht : asciiLower t = "px".data) :
    ((executeSet now st [k, v, t, d]).isErr = true ↔
      goParseDuration (d ++ "ms".data) = none) ∧
    ((executeSet now st [k, v, t, d]).isErr = true →
      executeSet now st [k, v, t, d]
        = ⟨errorReply "Invalid expiration time".data, true, st⟩) ∧
    ((executeSet now st [k, v, t, d]).isErr = false →
      executeSet now st [k, v, t, d]
        = ⟨simpleString "OK".data, false,
            storeSet st k ⟨v, some (now + (goParseDuration (d ++ "ms".data)).getD 0)⟩⟩) := by
  rcases h : goParseDuration (d ++ "ms".data) with _ | dur <;>
    simp [executeSet, ht, h]

/-- C6 witness: the amended theorem at `PX`/`abc` (rejected, store kept)
— the hypothesis is discharged at the concrete token `PX`. -/
theorem set_px_accepts_iff_duration_parses_witness :
    asciiLower "PX".data = "px".data ∧
    (((executeSet 0 [] ["key".data, "value".data, "PX".data, "abc".data]).isErr = true ↔
      goParseDuration ("abc".data ++ "ms".data) = none) ∧
    ((executeSet 0 [] ["key".data, "value".data, "PX".data, "abc".data]).isErr = true →
      executeSet 0 [] ["key".data, "value".data, "PX".data, "abc".data]
        = ⟨errorReply "Invalid expiration time".data, true, []⟩) ∧
    ((executeSet 0 [] ["key".data, "value".data, "PX".data, "abc".data]).isErr = false →
      executeSet 0 [] ["key".data, "value".data, "PX".data, "abc".data]
        = ⟨simpleString "OK".data, false,
            storeSet [] "key".data
              ⟨"value".data,
                some (0 + (goParseDuration ("abc".data ++ "ms".data)).getD 0)⟩⟩)) :=
  ⟨by decide, set_px_accepts_iff_duration_parses 0 [] _ _ _ _ (by decide)⟩

/-- C7 counterexample: on the well-formed stream `*1 CRLF $4 CRLF PI`
truncated mid-frame, `Parse` DOES report an error (a non-nil Go error),
contradicting the claim that a short read is not reported as an error. -/
theorem parse_truncated_frame_reports_error :
    (Parse "*1\r\n$4\r\nPI".data).2 ≠ none := by
  decide

/-- C7 (amended): on a stream of well-formed frames followed by a frame
truncated mid-bulk, `Parse` returns the fully decoded frames together
with a NON-nil error; no count of consumed bytes is reported (the
function has no such result), and the caller discards the buffer. -/
theorem parse_truncated_stream_keeps_frames_and_errors (cs : List Command) :
    (Parse (encodeCommands cs ++ "*1\r\n$4\r\nPI".data)).1.commands = cs.map normCmd ∧
    (Parse (encodeCommands cs ++ "*1\r\n$4\r\nPI".data)).1.rdbDump = [] ∧
    (Parse (encodeCommands cs ++ "*1\r\n$4\r\nPI".data)).2.isSome = true := by
  have hlen : cs.length ≤ (encodeCommands cs ++ "*1\r\n$4\r\nPI".data).length := by
    have h1 := encodeCommands_length_ge cs
    simp only [List.length_append]
    omega
  have key := parseLoop_encodeAll cs
    ((encodeCommands cs ++ "*1\r\n$4\r\nPI".data).length + 1)
    ("*1\r\n$4\r\nPI".data) [] [] (Nat.le_succ_of_le hlen)
  obtain ⟨m, hm⟩ : ∃ m,
      (encodeCommands cs ++ "*1\r\n$4\r\nPI".data).length + 1 - cs.length = m + 1 :=
    ⟨(encodeCommands cs ++ "*1\r\n$4\r\nPI".data).length - cs.length, by omega⟩
  rw [Parse, key, hm, parseLoop_truncated_frame]
  simp

/-- C8 counterexample: the basic handler's PING with an argument replies
`+PONG`, not an `-ERR` error as the claim states. -/
theorem basic_ping_replies_pong_with_args :
    executePing ["x".data] = (simpleString "PONG".data, false) ∧
    (executePing ["x".data]).1.head? ≠ some '-' := by
  decide

/-- C8 (amended): PING with a non-zero argument count is rejected with
`-ERR` only by the replication-aware handler; the basic handler replies
`+PONG` regardless of arguments, and both reply `+PONG` to a bare PING. -/
theorem ping_arg_check_per_variant (args : List Str) (h : args ≠ []) :
    executePingChecked args
      = (errorReply "PING command does not require any arguments".data, true) ∧
    executePingChecked [] = (simpleString "PONG".data, false) ∧
    executePing args = (simpleString "PONG".data, false) := by
  have hlen : args.length ≠ 0 := by
    cases args with
    | nil => exact absurd rfl h
    | cons a l => simp
  refine ⟨?_, rfl, rfl⟩
  simp [executePingChecked, hlen]

/-- C8 witness: the per-variant PING theorem at the argument list
`["x"]`. -/
theorem ping_arg_check_per_variant_witness :
    (["x".data] : List Str) ≠ [] ∧
    (executePingChecked ["x".data]
      = (errorReply "PING command does not require any arguments".data, true) ∧
    executePingChecked [] = (simpleString "PONG".data, false) ∧
    executePing ["x".data] = (simpleString "PONG".data, false)) :=
  ⟨by decide, ping_arg_check_per_variant ["x".data] (by decide)⟩

/-- C9: the INFO replication body on a master depends on the iteration
order of the Go map holding the key/value pairs — two orders that are
both permutations of the inserted pairs produce different byte strings
(and different bulk-string replies), so the output is not a
deterministic function of the configuration. -/
theorem info_output_depends_on_map_order :
    ∃ o1 o2 : List (Str × Str),
      o1.Perm (replParams false "12".data) ∧
      o2.Perm (replParams false "12".data) ∧
      infoReplicationWithOrder o1
        = ("#Replication\r\nrole:master\r\nmaster_repl_offset:0" ++
            "\r\nmaster_replid:12").data ∧
      infoReplicationWithOrder o1 ≠ infoReplicationWithOrder o2 ∧
      bulkString (infoReplicationWithOrder o1)
        ≠ bulkString (infoReplicationWithOrder o2) := by
  refine ⟨replParams false "12".data,
    [("master_replid".data, "12".data), ("role".data, "master".data),
      ("master_repl_offset".data, "0".data)], ?_, ?_, ?_, ?_, ?_⟩ <;> decide

/-- C10: GET never modifies the store, and a record whose expiration has
elapsed is reported as null bulk without being deleted, so a subsequent
DEL of that key still replies `:1`. -/
theorem get_readonly_expired_not_deleted (st : Store) (k v : Str) (t now : Int)
    (args : List Str) (h : t < now) :
    (executeGet now st args).store = st ∧
    (executeGet now (storeSet st k ⟨v, some t⟩) [k]).msg = nilBulk ∧
    (executeDel (storeSet st k ⟨v, some t⟩) [k]).msg = simpleInteger 1 := by
  refine ⟨?_, ?_, ?_⟩
  · rcases args with _ | ⟨a, rest⟩
    · rfl
    · rcases rest with _ | ⟨b, rest2⟩
      · rcases hg : storeGet st a with _ | r
        · simp [executeGet, hg]
        · rcases hex : r.expireAt with _ | te
          · simp [executeGet, hg, hex]
          · by_cases hlt : te < now <;> simp [executeGet, hg, hex, hlt]
      · rfl
  · simp [executeGet, storeGet_storeSet_self, h]
  · simp [executeDel, delLoop, storeDel, storeGet_storeSet_self, simpleInteger]

/-- C10 witness: the frame theorem at a concrete expired record. -/
theorem get_readonly_expired_not_deleted_witness :
    ((0 : Int) < 1) ∧
    ((executeGet 1 [] ["a".data]).store = [] ∧
    (executeGet 1 (storeSet [] "key".data ⟨"v".data, some 0⟩) ["key".data]).msg = nilBulk ∧
    (executeDel (storeSet [] "key".data ⟨"v".data, some 0⟩) ["key".data]).msg
      = simpleInteger 1) :=
  ⟨by decide, get_readonly_expired_not_deleted [] "key".data "v".data 0 1 ["a".data]
    (by decide)⟩

end MyRedis
